import Mathlib

/-!
Verification of the pagination, listing, connection and document-record
logic of `src/viewer.py` (ChromaDB viewer).  The Python functions
`ChromaViewer.connect`, `ChromaViewer.get_collections` and
`ChromaViewer.get_collection_documents` are embedded shallowly below; the
external Chroma client is modelled as an explicit store argument, and
Python's `json.dumps(·, indent=2)` / `json.loads` (used for the
`metadata_str` field) are modelled over an inductive JSON value type.
-/

namespace ChromaViewer

/-- JSON values, as produced by Python's `json` module for Chroma metadata
mappings (`str` keys, scalar or nested values).  Floating point numbers are
not modelled; Chroma metadata in the claims uses null/bool/int/string and
nested arrays/objects. -/
inductive Json where
  | null : Json
  | bool (b : Bool) : Json
  | int (n : Int) : Json
  | str (s : String) : Json
  | arr (elems : List Json) : Json
  | obj (members : List (String × Json)) : Json

/-- Metadata mapping attached to a document (a Python `dict` with string
keys, modelled as an ordered association list). -/
abbrev Metadata := List (String × Json)

/-- The character `\x7b` (left curly brace). -/
def lbrace : Char := Char.ofNat 123

/-- The character `\x7d` (right curly brace). -/
def rbrace : Char := Char.ofNat 125

/-- Lower-case hexadecimal digit for a value below 16, as produced by
Python's `'\\u%04x'` formatting in `json.encoder`. -/
def hexDigit (n : Nat) : Char :=
  if n < 10 then Char.ofNat (48 + n) else Char.ofNat (87 + n)

/-- Four lower-case hex digits of a value below `0x10000`. -/
def hex4 (n : Nat) : List Char :=
  [hexDigit (n / 4096 % 16), hexDigit (n / 256 % 16), hexDigit (n / 16 % 16), hexDigit (n % 16)]

/-- Escaping of one character by `json.dumps` (default `ensure_ascii=True`:
the short escapes of `ESCAPE_DCT`, `\\uXXXX` for other characters outside
`0x20`–`0x7e`, surrogate pairs above `0xffff`). -/
def escapeChar (c : Char) : List Char :=
  if c = '"' then ['\\', '"']
  else if c = '\\' then ['\\', '\\']
  else if c = '\n' then ['\\', 'n']
  else if c = '\t' then ['\\', 't']
  else if c = '\r' then ['\\', 'r']
  else if c.toNat = 8 then ['\\', 'b']
  else if c.toNat = 12 then ['\\', 'f']
  else if c.toNat < 32 ∨ c.toNat > 126 then
    if c.toNat ≤ 65535 then '\\' :: 'u' :: hex4 c.toNat
    else
      ('\\' :: 'u' :: hex4 (55296 + (c.toNat - 65536) / 1024)) ++
      ('\\' :: 'u' :: hex4 (56320 + (c.toNat - 65536) % 1024))
  else [c]

/-- Escaping of a whole string body (without the surrounding quotes). -/
def escapeList : List Char → List Char
  | [] => []
  | c :: cs => escapeChar c ++ escapeList cs

/-- Decimal digits of a natural number, most significant first (Python
`repr` of a non-negative `int`). -/
def natDigits (n : Nat) : List Char :=
  if _h : n < 10 then [Char.ofNat (48 + n)]
  else natDigits (n / 10) ++ [Char.ofNat (48 + n % 10)]
decreasing_by simp_wf; omega

/-- Decimal rendering of a Python `int`. -/
def intChars (n : Int) : List Char :=
  if n < 0 then '-' :: natDigits (-n).toNat else natDigits n.toNat

/-- Indentation emitted by `json.dumps(·, indent=2)` at nesting level
`lvl`: `2 * lvl` spaces. -/
def indentChars (lvl : Nat) : List Char := List.replicate (2 * lvl) ' '

mutual

/-- Characters of `json.dumps(v, indent=2)` with the enclosing container at
nesting level `lvl` (top level is 0).  Mirrors `json.encoder`: item
separator `,`, key separator `: `, a newline plus `2*(lvl+1)` spaces before
each element, a newline plus `2*lvl` spaces before the closing bracket, and
`[]` / `\x7b\x7d` for empty containers. -/
def emitVal : Json → Nat → List Char
  | .null, _ => ['n', 'u', 'l', 'l']
  | .bool true, _ => ['t', 'r', 'u', 'e']
  | .bool false, _ => ['f', 'a', 'l', 's', 'e']
  | .int n, _ => intChars n
  | .str s, _ => '"' :: (escapeList s.data ++ ['"'])
  | .arr [], _ => ['[', ']']
  | .arr (x :: xs), lvl =>
      '[' :: '\n' :: (indentChars (lvl + 1) ++ emitVal x (lvl + 1) ++
        emitArrRest xs (lvl + 1) ++ '\n' :: (indentChars lvl ++ [']']))
  | .obj [], _ => [lbrace, rbrace]
  | .obj (kv :: kvs), lvl =>
      lbrace :: '\n' :: (indentChars (lvl + 1) ++ emitMember kv (lvl + 1) ++
        emitObjRest kvs (lvl + 1) ++ '\n' :: (indentChars lvl ++ [rbrace]))

/-- Remaining array elements, each preceded by `,\n` and indentation. -/
def emitArrRest : List Json → Nat → List Char
  | [], _ => []
  | x :: xs, lvl => ',' :: '\n' :: (indentChars lvl ++ emitVal x lvl ++ emitArrRest xs lvl)

/-- One `"key": value` object member. -/
def emitMember : String × Json → Nat → List Char
  | (k, v), lvl => '"' :: (escapeList k.data ++ ['"', ':', ' '] ++ emitVal v lvl)

/-- Remaining object members, each preceded by `,\n` and indentation. -/
def emitObjRest : List (String × Json) → Nat → List Char
  | [], _ => []
  | kv :: kvs, lvl => ',' :: '\n' :: (indentChars lvl ++ emitMember kv lvl ++ emitObjRest kvs lvl)

end

/-- Embeds Python's `json.dumps(v, indent=2)` as used at
`src/viewer.py:136`. -/
def dumps (v : Json) : String := String.mk (emitVal v 0)

/-- JSON whitespace skipped by `json.loads`. -/
def isWsChar (c : Char) : Bool := c = ' ' || c = '\n' || c = '\t' || c = '\r'

/-- Drops leading JSON whitespace. -/
def skipWs : List Char → List Char
  | [] => []
  | c :: cs => if isWsChar c then skipWs cs else c :: cs

/-- ASCII decimal digit test. -/
def isDigitChar (c : Char) : Bool := 48 ≤ c.toNat && c.toNat ≤ 57

/-- Value of one hexadecimal digit (both cases accepted, as by
`json.loads`). -/
def hexVal (c : Char) : Option Nat :=
  if 48 ≤ c.toNat ∧ c.toNat ≤ 57 then some (c.toNat - 48)
  else if 97 ≤ c.toNat ∧ c.toNat ≤ 102 then some (c.toNat - 87)
  else if 65 ≤ c.toNat ∧ c.toNat ≤ 70 then some (c.toNat - 55)
  else none

/-- Four hex digits after a `\\u` escape. -/
def parseHex4 : List Char → Option (Nat × List Char)
  | a :: b :: c :: d :: rest =>
    match hexVal a, hexVal b, hexVal c, hexVal d with
    | some x, some y, some z, some w => some (4096 * x + 256 * y + 16 * z + w, rest)
    | _, _, _, _ => none
  | _ => none

/-- Accumulates leading decimal digits (the integer part of a JSON number;
floats are not modelled, see `Json`). -/
def parseDigits (acc : Nat) : List Char → Nat × List Char
  | [] => (acc, [])
  | c :: cs => if isDigitChar c then parseDigits (10 * acc + (c.toNat - 48)) cs else (acc, c :: cs)

/-- Tests that a character list does not begin with a decimal digit (the
follower condition under which `parseDigits` consumes nothing of it). -/
def noDigitHead : List Char → Bool
  | [] => true
  | c :: _ => !(isDigitChar c)

/-- Decodes one backslash escape (`e` is the character after the
backslash).  Surrogate pairs are combined as by `json.loads`; a lone
surrogate (which `dumps` never produces, and which Lean's `Char` cannot
represent) falls back to `Char.ofNat`. -/
def escDecode (e : Char) (cs : List Char) : Option (Char × List Char) :=
  if e = '"' then some ('"', cs)
  else if e = '\\' then some ('\\', cs)
  else if e = '/' then some ('/', cs)
  else if e = 'n' then some ('\n', cs)
  else if e = 't' then some ('\t', cs)
  else if e = 'r' then some ('\r', cs)
  else if e = 'b' then some (Char.ofNat 8, cs)
  else if e = 'f' then some (Char.ofNat 12, cs)
  else if e = 'u' then
    match parseHex4 cs with
    | some (h, r1) =>
      if 55296 ≤ h ∧ h ≤ 56319 then
        match r1 with
        | '\\' :: 'u' :: r2 =>
          match parseHex4 r2 with
          | some (l, r3) =>
            if 56320 ≤ l ∧ l ≤ 57343 then
              some (Char.ofNat (65536 + (h - 55296) * 1024 + (l - 56320)), r3)
            else some (Char.ofNat h, r1)
          | none => some (Char.ofNat h, r1)
        | _ => some (Char.ofNat h, r1)
      else some (Char.ofNat h, r1)
    | none => none
  else none

/-- String body after the opening quote, up to and including the closing
quote.  Fuelled; one unit of fuel per decoded character. -/
def parseStringBody : Nat → List Char → Option (List Char × List Char)
  | 0, _ => none
  | _ + 1, [] => none
  | fuel + 1, c :: cs =>
    if c = '"' then some ([], cs)
    else if c = '\\' then
      match cs with
      | [] => none
      | e :: cs2 =>
        match escDecode e cs2 with
        | some (ch, r) => (parseStringBody fuel r).map (fun p => (ch :: p.1, p.2))
        | none => none
    else (parseStringBody fuel cs).map (fun p => (c :: p.1, p.2))

mutual

/-- One JSON value (fuelled recursive-descent parser mirroring
`json.loads`; see `Json` for the modelled fragment). -/
def parseVal : Nat → List Char → Option (Json × List Char)
  | 0, _ => none
  | fuel + 1, cs =>
    match skipWs cs with
    | [] => none
    | c :: rest =>
      if c = 'n' then
        match rest with
        | 'u' :: 'l' :: 'l' :: r => some (.null, r)
        | _ => none
      else if c = 't' then
        match rest with
        | 'r' :: 'u' :: 'e' :: r => some (.bool true, r)
        | _ => none
      else if c = 'f' then
        match rest with
        | 'a' :: 'l' :: 's' :: 'e' :: r => some (.bool false, r)
        | _ => none
      else if c = '"' then
        (parseStringBody fuel rest).map (fun p => (.str (String.mk p.1), p.2))
      else if c = '[' then
        match skipWs rest with
        | [] => none
        | c2 :: r =>
          if c2 = ']' then some (.arr [], r)
          else (parseArrElems fuel (c2 :: r)).map (fun p => (.arr p.1, p.2))
      else if c = lbrace then
        match skipWs rest with
        | [] => none
        | c2 :: r =>
          if c2 = rbrace then some (.obj [], r)
          else (parseObjMembers fuel (c2 :: r)).map (fun p => (.obj p.1, p.2))
      else if c = '-' then
        match rest with
        | [] => none
        | d :: _ =>
          if isDigitChar d then
            some (.int (-((parseDigits 0 rest).1 : Int)), (parseDigits 0 rest).2)
          else none
      else if isDigitChar c then
        some (.int ((parseDigits 0 (c :: rest)).1 : Int), (parseDigits 0 (c :: rest)).2)
      else none

/-- Array elements from the first element on (the input is known not to
start with `]`). -/
def parseArrElems : Nat → List Char → Option (List Json × List Char)
  | 0, _ => none
  | fuel + 1, cs =>
    match parseVal fuel cs with
    | none => none
    | some (v, r) =>
      match skipWs r with
      | ',' :: r2 => (parseArrElems fuel r2).map (fun p => (v :: p.1, p.2))
      | ']' :: r2 => some ([v], r2)
      | _ => none

/-- Object members from the first member on (the input is known not to
start with `\x7d`). -/
def parseObjMembers : Nat → List Char → Option (List (String × Json) × List Char)
  | 0, _ => none
  | fuel + 1, cs =>
    match skipWs cs with
    | '"' :: r =>
      match parseStringBody fuel r with
      | none => none
      | some (k, r1) =>
        match skipWs r1 with
        | ':' :: r2 =>
          match parseVal fuel r2 with
          | none => none
          | some (v, r3) =>
            match skipWs r3 with
            | [] => none
            | c :: r4 =>
              if c = ',' then
                (parseObjMembers fuel r4).map (fun p => ((String.mk k, v) :: p.1, p.2))
              else if c = rbrace then some ([(String.mk k, v)], r4)
              else none
        | _ => none
    | _ => none

end

/-- Embeds Python's `json.loads` (on the fragment produced by `dumps`):
parses one value and requires only whitespace to remain. -/
def loads (s : String) : Option Json :=
  match parseVal (s.data.length + 1) s.data with
  | some (v, rest) => if skipWs rest = [] then some v else none
  | none => none

mutual

/-- Fuel bound for `parseVal` on the output of `emitVal`. -/
def jsize : Json → Nat
  | .null => 1
  | .bool _ => 1
  | .int _ => 1
  | .str s => s.length + 2
  | .arr xs => jsizeL xs + 1
  | .obj ms => jsizeM ms + 1

/-- Fuel bound for the element loop. -/
def jsizeL : List Json → Nat
  | [] => 1
  | x :: xs => jsize x + jsizeL xs + 1

/-- Fuel bound for the member loop. -/
def jsizeM : List (String × Json) → Nat
  | [] => 1
  | kv :: ms => kv.1.length + jsize kv.2 + jsizeM ms + 2

end

/-- Result of `collection.get(include=['documents', 'metadatas'])`
(`src/viewer.py:93`): parallel lists of ids, document contents and
optional metadata mappings.  (When the `'ids'` key were absent the code
would fall back to `list(range(len(documents)))`, a list of the same
length, so the per-index fallback `doc_<idx>` below is unaffected.) -/
structure GetResult where
  ids : List String
  documents : List String
  metadatas : List (Option Metadata)

/-- Outcome of reaching the external store for one collection:
`notFound` models `chroma_client.get_collection` raising because the
collection does not exist (`src/viewer.py:90`), `getError` models any
other exception from the store (`src/viewer.py:93`), `ok` a successful
fetch. -/
inductive StoreResult where
  | notFound (msg : String) : StoreResult
  | getError (msg : String) : StoreResult
  | ok (r : GetResult) : StoreResult

/-- One emitted document record (`src/viewer.py:130`–`137`). -/
structure DocRecord where
  index : Nat
  id : String
  content : String
  content_preview : String
  metadata : Metadata
  metadata_str : String

/-- Return value of `get_collection_documents` (`src/viewer.py:96`–`104`
and `139`–`148`).  `start_idx` and `end_idx` are `Option`s because the
empty-collection return (`src/viewer.py:96`–`104`) omits those two keys. -/
structure PageData where
  collection_name : String
  documents : List DocRecord
  total_documents : Nat
  current_page : Int
  total_pages : Nat
  page_size : Nat
  start_idx : Option Int
  end_idx : Option Nat

/-- An HTTP error raised via `HTTPException` (status code and detail). -/
structure HTTPError where
  status : Nat
  detail : String

/-- Builds one document record for 0-based index `idx`
(`src/viewer.py:126`–`137`): id with `doc_<idx>` fallback, content,
preview truncated to 200 characters with a `...` marker, metadata
defaulted to the empty mapping when absent/`None`/empty, and
`metadata_str` empty for empty metadata, else `json.dumps(·, indent=2)`. -/
def mkDoc (ids documents : List String) (metadatas : List (Option Metadata))
    (idx : Nat) : DocRecord :=
  let doc_id := (ids.get? idx).getD ("doc_" ++ toString idx)
  let content := (documents.get? idx).getD ""
  let metadata : Metadata :=
    match (metadatas.get? idx).getD none with
    | some m => if m.isEmpty then [] else m
    | none => []
  { index := idx + 1
    id := doc_id
    content := content
    content_preview :=
      if content.length > 200 then String.mk (content.data.take 200) ++ "..." else content
    metadata := metadata
    metadata_str := if metadata.isEmpty then "" else dumps (.obj metadata) }

/-- Embeds `ChromaViewer.get_collection_documents`
(`src/viewer.py:85`–`151`).  The store is an explicit argument mapping the
collection name to the fetch outcome; both failure outcomes are caught by
the blanket `except` and re-raised as `HTTPException(500, ...)`
(`src/viewer.py:150`–`151`).  `page` is an `int`; `page_size` is taken as
a `Nat` (the HTTP routes enforce `1 ≤ page_size ≤ 100`), with
`page_size = 0` mapped to the `ZeroDivisionError` the Python code would
raise at the ceiling division (also caught by the blanket `except`). -/
def get_collection_documents (store : String → StoreResult) (collection_name : String)
    (page : Int) (page_size : Nat) : Except HTTPError PageData :=
  match store collection_name with
  | .notFound msg => .error ⟨500, "Error retrieving documents: " ++ msg⟩
  | .getError msg => .error ⟨500, "Error retrieving documents: " ++ msg⟩
  | .ok results =>
    if results.documents.isEmpty then
      .ok { collection_name := collection_name
            documents := []
            total_documents := 0
            current_page := page
            total_pages := 0
            page_size := page_size
            start_idx := none
            end_idx := none }
    else if page_size = 0 then
      .error ⟨500, "Error retrieving documents: integer division or modulo by zero"⟩
    else
      let documents := results.documents
      let metadatas := results.metadatas
      let ids := results.ids
      let total_docs := documents.length
      let total_pages := (total_docs + page_size - 1) / page_size
      let page1 : Int := if page < 1 then 1 else page
      let page2 : Int := if page1 > (total_pages : Int) then (total_pages : Int) else page1
      let start_idx : Nat := (page2 - 1).toNat * page_size
      let end_idx : Nat := min (start_idx + page_size) total_docs
      let page_documents :=
        (List.range' start_idx (end_idx - start_idx)).map (mkDoc ids documents metadatas)
      .ok { collection_name := collection_name
            documents := page_documents
            total_documents := total_docs
            current_page := page2
            total_pages := total_pages
            page_size := page_size
            start_idx := some ((start_idx : Int) + 1)
            end_idx := some end_idx }

/-- One entry of the collections listing (`src/viewer.py:73`–`82`). -/
structure CollEntry where
  name : String
  document_count : Nat
  error : Option String

/-- Embeds `ChromaViewer.get_collections` (`src/viewer.py:64`–`83`).  The
store is modelled as the list of collections the client enumerates, each
paired with the outcome of `get_collection(name).count()`: a count, or the
exception message when that per-collection lookup raises. -/
def get_collections (cols : List (String × Except String Nat)) : List CollEntry :=
  cols.map fun nr =>
    match nr.2 with
    | .ok cnt => { name := nr.1, document_count := cnt, error := none }
    | .error e => { name := nr.1, document_count := 0, error := some e }

/-- The module-level mutable connection state of `src/viewer.py:28`–`29`:
the global `chroma_client` handle (abstracted to a `Nat` identifier) and
the global `db_path`. -/
structure ViewerState where
  chroma_client : Option Nat
  db_path : Option String

/-- Embeds `ChromaViewer.connect` (`src/viewer.py:37`–`49`).  `openClient`
models `chromadb.PersistentClient(path=...)`, which either yields a client
or raises.  Mirroring the Python statement order, `db_path` is assigned
first; a raise in `PersistentClient` is caught, `False` is returned, and
`chroma_client` keeps its previous value. -/
def connect (st : ViewerState) (db_path_str : String)
    (openClient : String → Except String Nat) : Bool × ViewerState :=
  let st1 : ViewerState := { st with db_path := some db_path_str }
  match openClient db_path_str with
  | .ok c => (true, { st1 with chroma_client := some c })
  | .error _ => (false, st1)

/-- Ceiling of `n / s` stated independently of the code's
`(n + s - 1) // s` formula, for comparison against it (claim C1's
`ceil(N/S)`). -/
def ceilDiv (n s : Nat) : Nat := n / s + (if n % s = 0 then 0 else 1)

/-! ### Character and scanning lemmas -/

theorem char_toNat_valid (c : Char) :
    c.toNat < 55296 ∨ (57344 ≤ c.toNat ∧ c.toNat < 1114112) := by
  have h := c.valid
  simp only [UInt32.isValidChar, Nat.isValidChar, Char.toNat] at h ⊢
  omega

theorem toNat_ofNat_valid {n : Nat} (h : Nat.isValidChar n) : (Char.ofNat n).toNat = n := by
  simp [Char.ofNat, h, Char.ofNatAux, Char.toNat, UInt32.toNat]

theorem char_ne_of_toNat {c d : Char} (h : c.toNat ≠ d.toNat) : c ≠ d :=
  fun he => h (he ▸ rfl)

theorem skipWs_cons_not_ws {c : Char} (h : isWsChar c = false) (cs : List Char) :
    skipWs (c :: cs) = c :: cs := by
  simp [skipWs, h]

theorem skipWs_cons_ws {c : Char} (h : isWsChar c = true) (cs : List Char) :
    skipWs (c :: cs) = skipWs cs := by
  simp [skipWs, h]

theorem skipWs_replicate_space (k : Nat) (cs : List Char) :
    skipWs (List.replicate k ' ' ++ cs) = skipWs cs := by
  induction k with
  | zero => rfl
  | succ k ih => simpa [List.replicate_succ, skipWs, isWsChar] using ih

theorem skipWs_indent (lvl : Nat) (cs : List Char) :
    skipWs (indentChars lvl ++ cs) = skipWs cs := skipWs_replicate_space _ cs

theorem skipWs_nl (cs : List Char) : skipWs ('\n' :: cs) = skipWs cs := by
  simp [skipWs, isWsChar]

theorem hexVal_hexDigit : ∀ n, n < 16 → hexVal (hexDigit n) = some n := by decide

theorem parseHex4_hex4 {n : Nat} (h : n < 65536) (rest : List Char) :
    parseHex4 (hex4 n ++ rest) = some (n, rest) := by
  have h1 : n / 4096 % 16 < 16 := Nat.mod_lt _ (by norm_num)
  have h2 : n / 256 % 16 < 16 := Nat.mod_lt _ (by norm_num)
  have h3 : n / 16 % 16 < 16 := Nat.mod_lt _ (by norm_num)
  have h4 : n % 16 < 16 := Nat.mod_lt _ (by norm_num)
  simp only [hex4, List.cons_append, List.nil_append, parseHex4,
    hexVal_hexDigit _ h1, hexVal_hexDigit _ h2, hexVal_hexDigit _ h3, hexVal_hexDigit _ h4]
  congr 2
  omega

/-! ### String escaping round trip -/

theorem escapeChar_cases (c : Char) (rest : List Char) :
    (escapeChar c = [c] ∧ c ≠ '"' ∧ c ≠ '\\') ∨
    (∃ e extra, escapeChar c = '\\' :: e :: extra ∧
      escDecode e (extra ++ rest) = some (c, rest)) := by
  have hvalid := char_toNat_valid c
  have hofn := Char.ofNat_toNat c
  by_cases h1 : c = '"'
  · subst h1; exact Or.inr ⟨'"', [], rfl, by simp [escDecode]⟩
  by_cases h2 : c = '\\'
  · subst h2; exact Or.inr ⟨'\\', [], rfl, by simp [escDecode]⟩
  by_cases h3 : c = '\n'
  · subst h3; exact Or.inr ⟨'n', [], by simp [escapeChar], by simp [escDecode]⟩
  by_cases h4 : c = '\t'
  · subst h4; exact Or.inr ⟨'t', [], by simp [escapeChar], by simp [escDecode]⟩
  by_cases h5 : c = '\r'
  · subst h5; exact Or.inr ⟨'r', [], by simp [escapeChar], by simp [escDecode]⟩
  by_cases h6 : c.toNat = 8
  · refine Or.inr ⟨'b', [], ?_, ?_⟩
    · simp [escapeChar, h1, h2, h3, h4, h5, h6]
    · simp only [escDecode, if_neg (by decide : ¬ ('b' : Char) = '"'),
        if_neg (by decide : ¬ ('b' : Char) = '\\'), if_neg (by decide : ¬ ('b' : Char) = '/'),
        if_neg (by decide : ¬ ('b' : Char) = 'n'), if_neg (by decide : ¬ ('b' : Char) = 't'),
        if_neg (by decide : ¬ ('b' : Char) = 'r'), if_pos rfl]
      rw [← h6, hofn]
      simp
  by_cases h7 : c.toNat = 12
  · refine Or.inr ⟨'f', [], ?_, ?_⟩
    · simp [escapeChar, h1, h2, h3, h4, h5, h6, h7]
    · simp only [escDecode, if_neg (by decide : ¬ ('f' : Char) = '"'),
        if_neg (by decide : ¬ ('f' : Char) = '\\'), if_neg (by decide : ¬ ('f' : Char) = '/'),
        if_neg (by decide : ¬ ('f' : Char) = 'n'), if_neg (by decide : ¬ ('f' : Char) = 't'),
        if_neg (by decide : ¬ ('f' : Char) = 'r'), if_neg (by decide : ¬ ('f' : Char) = 'b'),
        if_pos rfl]
      rw [← h7, hofn]
      simp
  by_cases h8 : c.toNat < 32 ∨ c.toNat > 126
  case neg =>
    refine Or.inl ⟨?_, h1, h2⟩
    simp [escapeChar, h1, h2, h3, h4, h5, h6, h7, h8]
  by_cases h9 : c.toNat ≤ 65535
  · -- basic-plane escape `\uXXXX`
    refine Or.inr ⟨'u', hex4 c.toNat, ?_, ?_⟩
    · simp [escapeChar, h1, h2, h3, h4, h5, h6, h7, h8, h9]
    have hne : ¬ (55296 ≤ c.toNat ∧ c.toNat ≤ 56319) := by omega
    simp [escDecode, parseHex4_hex4 (by omega : c.toNat < 65536), hne, hofn]
  · -- surrogate-pair escape for code points above `0xffff`
    have hv : c.toNat < 1114112 := by omega
    refine Or.inr ⟨'u', hex4 (55296 + (c.toNat - 65536) / 1024) ++
      ('\\' :: 'u' :: hex4 (56320 + (c.toNat - 65536) % 1024)), ?_, ?_⟩
    · simp [escapeChar, h1, h2, h3, h4, h5, h6, h7, h8, h9]
    have hhi : 55296 + (c.toNat - 65536) / 1024 < 65536 := by omega
    have hlo : 56320 + (c.toNat - 65536) % 1024 < 65536 := by omega
    have hhir : 55296 ≤ 55296 + (c.toNat - 65536) / 1024 ∧
        55296 + (c.toNat - 65536) / 1024 ≤ 56319 := by omega
    have hlor : 56320 ≤ 56320 + (c.toNat - 65536) % 1024 ∧
        56320 + (c.toNat - 65536) % 1024 ≤ 57343 := by omega
    have harith : 65536 + (55296 + (c.toNat - 65536) / 1024 - 55296) * 1024 +
        (56320 + (c.toNat - 65536) % 1024 - 56320) = c.toNat := by omega
    simp only [List.append_assoc, List.cons_append, List.nil_append]
    simp [escDecode, parseHex4_hex4 hhi, parseHex4_hex4 hlo, hhir, hlor]
    have harith2 : 65536 + (c.toNat - 65536) / 1024 * 1024 + (c.toNat - 65536) % 1024
        = c.toNat := by omega
    rw [harith2, hofn]

/-! ### Decimal digits round trip -/

theorem toNat_ofNat_digit {n : Nat} (h : n < 10) : (Char.ofNat (48 + n)).toNat = 48 + n :=
  toNat_ofNat_valid (Or.inl (by omega))

theorem isDigitChar_ofNat {n : Nat} (h : n < 10) : isDigitChar (Char.ofNat (48 + n)) = true := by
  simp only [isDigitChar, toNat_ofNat_digit h, Bool.and_eq_true, decide_eq_true_eq]
  omega

theorem char_ne_of_toNat_out {c d : Char} {lo hi : Nat} (h1 : lo ≤ c.toNat) (h2 : c.toNat ≤ hi)
    (hd : d.toNat < lo ∨ hi < d.toNat) : c ≠ d :=
  char_ne_of_toNat (by omega)

theorem natDigits_head (n : Nat) : ∃ c cs, natDigits n = c :: cs ∧ isDigitChar c = true := by
  induction n using Nat.strong_induction_on with
  | _ n ih =>
    by_cases h : n < 10
    · exact ⟨Char.ofNat (48 + n), [], by rw [natDigits]; simp [h], isDigitChar_ofNat h⟩
    · obtain ⟨c, cs, hc, hd⟩ := ih (n / 10) (Nat.div_lt_self (by omega) (by omega))
      refine ⟨c, cs ++ [Char.ofNat (48 + n % 10)], ?_, hd⟩
      rw [natDigits]
      simp [h, hc]

theorem parseDigits_stop {rest : List Char} (h : noDigitHead rest = true) (acc : Nat) :
    parseDigits acc rest = (acc, rest) := by
  cases rest with
  | nil => rfl
  | cons c cs =>
    simp only [noDigitHead, Bool.not_eq_true'] at h
    simp [parseDigits, h]

theorem parseDigits_natDigits : ∀ n acc rest,
    parseDigits acc (natDigits n ++ rest)
      = parseDigits (acc * 10 ^ (natDigits n).length + n) rest := by
  intro n
  induction n using Nat.strong_induction_on with
  | _ n ih =>
    intro acc rest
    by_cases h : n < 10
    · rw [natDigits]
      simp only [h, dif_pos, List.singleton_append, List.length_singleton, pow_one]
      rw [parseDigits]
      simp only [isDigitChar_ofNat h, if_pos, toNat_ofNat_digit h]
      congr 1
      omega
    · rw [natDigits]
      simp only [h, dif_neg, not_false_iff, List.append_assoc, List.singleton_append,
        List.length_append, List.length_singleton]
      rw [ih (n / 10) (Nat.div_lt_self (by omega) (by omega))]
      rw [parseDigits]
      have h10 : n % 10 < 10 := Nat.mod_lt _ (by omega)
      simp only [isDigitChar_ofNat h10, if_pos, toNat_ofNat_digit h10]
      congr 1
      have hmod : 10 * (n / 10) + n % 10 = n := Nat.div_add_mod n 10
      calc 10 * (acc * 10 ^ (natDigits (n / 10)).length + n / 10) + (48 + n % 10 - 48)
          = acc * (10 ^ (natDigits (n / 10)).length * 10) + (10 * (n / 10) + n % 10) := by
            rw [Nat.add_sub_cancel_left]; ring
        _ = acc * 10 ^ ((natDigits (n / 10)).length + 1) + n := by rw [hmod, pow_succ]

theorem parseDigits_natDigits_done {rest : List Char} (h : noDigitHead rest = true) (n : Nat) :
    parseDigits 0 (natDigits n ++ rest) = (n, rest) := by
  rw [parseDigits_natDigits, parseDigits_stop h]
  simp

theorem parseStringBody_escape :
    ∀ (l : List Char) (fuel : Nat) (rest : List Char), l.length < fuel →
    parseStringBody fuel (escapeList l ++ '"' :: rest) = some (l, rest) := by
  intro l
  induction l with
  | nil =>
    intro fuel rest h
    match fuel, h with
    | fuel + 1, _ => simp [escapeList, parseStringBody]
  | cons c l ih =>
    intro fuel rest h
    match fuel, h with
    | fuel + 1, h =>
      have hlt : l.length < fuel := by simpa using Nat.lt_of_succ_lt_succ h
      rcases escapeChar_cases c (escapeList l ++ '"' :: rest) with ⟨he, hq, hb⟩ |
        ⟨e, extra, he, hd⟩
      · rw [escapeList, he]
        simp only [List.cons_append, List.nil_append]
        simp [parseStringBody, hq, hb, ih fuel rest hlt]
      · rw [escapeList, he]
        simp only [List.cons_append, List.append_assoc]
        simp only [parseStringBody]
        simp [hd, ih fuel rest hlt]

/-! ### Heads of emitted values -/

theorem mk_data (s : String) : String.mk s.data = s := rfl

theorem not_ws_of_digit {c : Char} (hb : 48 ≤ c.toNat ∧ c.toNat ≤ 57) : isWsChar c = false := by
  have h1 : c ≠ ' ' := char_ne_of_toNat_out hb.1 hb.2 (by decide)
  have h2 : c ≠ '\n' := char_ne_of_toNat_out hb.1 hb.2 (by decide)
  have h3 : c ≠ '\t' := char_ne_of_toNat_out hb.1 hb.2 (by decide)
  have h4 : c ≠ '\r' := char_ne_of_toNat_out hb.1 hb.2 (by decide)
  simp [isWsChar, h1, h2, h3, h4]

theorem emitVal_head_spec (v : Json) (lvl : Nat) :
    ∃ c cs, emitVal v lvl = c :: cs ∧ isWsChar c = false ∧ c ≠ ']' ∧ c ≠ rbrace := by
  cases v with
  | null => exact ⟨'n', ['u', 'l', 'l'], rfl, by decide, by decide, by decide⟩
  | bool b =>
    cases b with
    | true => exact ⟨'t', ['r', 'u', 'e'], rfl, by decide, by decide, by decide⟩
    | false => exact ⟨'f', ['a', 'l', 's', 'e'], rfl, by decide, by decide, by decide⟩
  | int n =>
    by_cases hn : n < 0
    · exact ⟨'-', natDigits (-n).toNat, by simp [emitVal, intChars, hn], by decide,
        by decide, by decide⟩
    · obtain ⟨c, cs, hc, hd⟩ := natDigits_head n.toNat
      have hb : 48 ≤ c.toNat ∧ c.toNat ≤ 57 := by
        simpa [isDigitChar, Bool.and_eq_true, decide_eq_true_eq] using hd
      refine ⟨c, cs, by simp [emitVal, intChars, hn, hc], not_ws_of_digit hb, ?_, ?_⟩
      · exact char_ne_of_toNat_out hb.1 hb.2 (by decide)
      · exact char_ne_of_toNat_out hb.1 hb.2 (by decide)
  | str s => exact ⟨'"', escapeList s.data ++ ['"'], rfl, by decide, by decide, by decide⟩
  | arr xs =>
    cases xs with
    | nil => exact ⟨'[', [']'], rfl, by decide, by decide, by decide⟩
    | cons x xs =>
      exact ⟨'[', '\n' :: (indentChars (lvl + 1) ++ emitVal x (lvl + 1) ++
        emitArrRest xs (lvl + 1) ++ '\n' :: (indentChars lvl ++ [']'])),
        by simp [emitVal], by decide, by decide, by decide⟩
  | obj ms =>
    cases ms with
    | nil => exact ⟨lbrace, [rbrace], rfl, by decide, by decide, by decide⟩
    | cons kv ms =>
      exact ⟨lbrace, '\n' :: (indentChars (lvl + 1) ++ emitMember kv (lvl + 1) ++
        emitObjRest ms (lvl + 1) ++ '\n' :: (indentChars lvl ++ [rbrace])),
        by simp [emitVal], by decide, by decide, by decide⟩

theorem jsize_pos (v : Json) : 1 ≤ jsize v := by
  cases v <;> simp [jsize]

/-! ### The parser inverts the emitter -/

theorem parse_emit (fuel : Nat) :
    (∀ v lvl rest cs, jsize v ≤ fuel → noDigitHead rest = true →
      skipWs cs = emitVal v lvl ++ rest → parseVal fuel cs = some (v, rest)) ∧
    (∀ x xs lvl clvl rest cs, jsize x + jsizeL xs + 1 ≤ fuel →
      skipWs cs = emitVal x lvl ++
        (emitArrRest xs lvl ++ '\n' :: (indentChars clvl ++ ']' :: rest)) →
      parseArrElems fuel cs = some (x :: xs, rest)) ∧
    (∀ (k : String) (v : Json) ms lvl clvl rest cs,
      k.length + jsize v + jsizeM ms + 2 ≤ fuel →
      skipWs cs = emitMember (k, v) lvl ++
        (emitObjRest ms lvl ++ '\n' :: (indentChars clvl ++ rbrace :: rest)) →
      parseObjMembers fuel cs = some ((k, v) :: ms, rest)) := by
  induction fuel using Nat.strong_induction_on with
  | _ fuel ih =>
    cases fuel with
    | zero =>
      refine ⟨fun v _ _ _ hj _ _ => absurd hj (by have := jsize_pos v; omega),
        fun _ _ _ _ _ _ hb _ => absurd hb (by omega),
        fun _ _ _ _ _ _ _ hb _ => absurd hb (by omega)⟩
    | succ g =>
      obtain ⟨hA, hB, hC⟩ := ih g (Nat.lt_succ_self g)
      refine ⟨?_, ?_, ?_⟩
      · -- parseVal inverts emitVal
        intro v lvl rest cs hj hr hcs
        cases v with
        | null =>
          simp only [emitVal, List.cons_append, List.nil_append] at hcs
          simp [parseVal, hcs]
        | bool b =>
          cases b <;> simp only [emitVal, List.cons_append, List.nil_append] at hcs <;>
            simp [parseVal, hcs]
        | str s =>
          have hlen : s.data.length < g := by
            have h' : s.length = s.data.length := rfl
            simp only [jsize] at hj
            omega
          simp only [emitVal, List.cons_append, List.append_assoc, List.nil_append] at hcs
          simp [parseVal, hcs, parseStringBody_escape s.data g rest hlen, mk_data]
        | int n =>
          by_cases hn : n < 0
          · simp only [emitVal, intChars, if_pos hn, List.cons_append] at hcs
            obtain ⟨d, ds, hd, hdig⟩ := natDigits_head (-n).toNat
            have hsplit : natDigits (-n).toNat ++ rest = d :: (ds ++ rest) := by
              rw [hd]; rfl
            have hpd : parseDigits 0 (d :: (ds ++ rest)) = ((-n).toNat, rest) := by
              rw [← hsplit]; exact parseDigits_natDigits_done hr _
            rw [hsplit] at hcs
            have hd6 : ¬ (('-' : Char) = lbrace) := by decide
            have hle : (((-n).toNat : Nat) : Int) = -n := Int.toNat_of_nonneg (by omega)
            simp [parseVal, hcs, hdig, hpd, hd6, hle]
          · simp only [emitVal, intChars, if_neg hn] at hcs
            obtain ⟨d, ds, hd, hdig⟩ := natDigits_head n.toNat
            have hb : 48 ≤ d.toNat ∧ d.toNat ≤ 57 := by
              simpa [isDigitChar, Bool.and_eq_true, decide_eq_true_eq] using hdig
            have hsplit : natDigits n.toNat ++ rest = d :: (ds ++ rest) := by
              rw [hd]; rfl
            have hpd : parseDigits 0 (d :: (ds ++ rest)) = (n.toNat, rest) := by
              rw [← hsplit]; exact parseDigits_natDigits_done hr _
            rw [hsplit] at hcs
            have hne1 : d ≠ 'n' := char_ne_of_toNat_out hb.1 hb.2 (by decide)
            have hne2 : d ≠ 't' := char_ne_of_toNat_out hb.1 hb.2 (by decide)
            have hne3 : d ≠ 'f' := char_ne_of_toNat_out hb.1 hb.2 (by decide)
            have hne4 : d ≠ '"' := char_ne_of_toNat_out hb.1 hb.2 (by decide)
            have hne5 : d ≠ '[' := char_ne_of_toNat_out hb.1 hb.2 (by decide)
            have hne6 : d ≠ lbrace := char_ne_of_toNat_out hb.1 hb.2 (by decide)
            have hne7 : d ≠ '-' := char_ne_of_toNat_out hb.1 hb.2 (by decide)
            have hcast : ((n.toNat : Nat) : Int) = n := Int.toNat_of_nonneg (by omega)
            simp [parseVal, hcs, hne1, hne2, hne3, hne4, hne5, hne6, hne7, hdig, hpd, hcast]
        | arr xs =>
          cases xs with
          | nil =>
            simp only [emitVal, List.cons_append, List.nil_append] at hcs
            have hsk : skipWs (']' :: rest) = ']' :: rest :=
              skipWs_cons_not_ws (by decide) _
            simp [parseVal, hcs, hsk]
          | cons x xs =>
            have hshape : emitVal (.arr (x :: xs)) lvl ++ rest =
                '[' :: '\n' :: (indentChars (lvl + 1) ++ (emitVal x (lvl + 1) ++
                  (emitArrRest xs (lvl + 1) ++ '\n' :: (indentChars lvl ++ ']' :: rest)))) := by
              simp [emitVal]
            rw [hshape] at hcs
            obtain ⟨c2, cs2, hc2, hnws, hnb, _⟩ := emitVal_head_spec x (lvl + 1)
            have hskip : skipWs ('\n' :: (indentChars (lvl + 1) ++ (emitVal x (lvl + 1) ++
                (emitArrRest xs (lvl + 1) ++ '\n' :: (indentChars lvl ++ ']' :: rest))))) =
                c2 :: (cs2 ++ (emitArrRest xs (lvl + 1) ++
                  '\n' :: (indentChars lvl ++ ']' :: rest))) := by
              rw [skipWs_nl, skipWs_indent, hc2, List.cons_append]
              exact skipWs_cons_not_ws hnws _
            have harr : parseArrElems g (c2 :: (cs2 ++ (emitArrRest xs (lvl + 1) ++
                '\n' :: (indentChars lvl ++ ']' :: rest)))) = some (x :: xs, rest) := by
              apply hB x xs (lvl + 1) lvl rest
              · simp only [jsize, jsizeL] at hj ⊢; omega
              · rw [skipWs_cons_not_ws hnws, ← List.cons_append, ← hc2]
            simp [parseVal, hcs, hskip, hnb, harr]
        | obj ms =>
          cases ms with
          | nil =>
            simp only [emitVal, List.cons_append, List.nil_append] at hcs
            have hsk : skipWs (rbrace :: rest) = rbrace :: rest :=
              skipWs_cons_not_ws (by decide) _
            have d1 : ¬ (lbrace = 'n') := by decide
            have d2 : ¬ (lbrace = 't') := by decide
            have d3 : ¬ (lbrace = 'f') := by decide
            have d4 : ¬ (lbrace = '"') := by decide
            have d5 : ¬ (lbrace = '[') := by decide
            simp [parseVal, hcs, hsk, d1, d2, d3, d4, d5]
          | cons kv ms =>
            obtain ⟨k, v⟩ := kv
            have hshape : emitVal (.obj ((k, v) :: ms)) lvl ++ rest =
                lbrace :: '\n' :: (indentChars (lvl + 1) ++ (emitMember (k, v) (lvl + 1) ++
                  (emitObjRest ms (lvl + 1) ++
                    '\n' :: (indentChars lvl ++ rbrace :: rest)))) := by
              simp [emitVal]
            rw [hshape] at hcs
            have hmh : emitMember (k, v) (lvl + 1) =
                '"' :: (escapeList k.data ++ ['"', ':', ' '] ++ emitVal v (lvl + 1)) := rfl
            have hskip : skipWs ('\n' :: (indentChars (lvl + 1) ++ (emitMember (k, v) (lvl + 1) ++
                (emitObjRest ms (lvl + 1) ++ '\n' :: (indentChars lvl ++ rbrace :: rest))))) =
                '"' :: ((escapeList k.data ++ ['"', ':', ' '] ++ emitVal v (lvl + 1)) ++
                  (emitObjRest ms (lvl + 1) ++ '\n' :: (indentChars lvl ++ rbrace :: rest))) := by
              rw [skipWs_nl, skipWs_indent, hmh, List.cons_append]
              exact skipWs_cons_not_ws (by decide) _
            have hobj : parseObjMembers g ('"' :: (escapeList k.data ++ '"' :: ':' :: ' ' ::
                (emitVal v (lvl + 1) ++ (emitObjRest ms (lvl + 1) ++
                  '\n' :: (indentChars lvl ++ rbrace :: rest))))) = some ((k, v) :: ms, rest) := by
              apply hC k v ms (lvl + 1) lvl rest
              · simp only [jsize, jsizeM] at hj ⊢; omega
              · rw [skipWs_cons_not_ws (by decide), hmh]
                simp
            have d1 : ¬ (lbrace = 'n') := by decide
            have d2 : ¬ (lbrace = 't') := by decide
            have d3 : ¬ (lbrace = 'f') := by decide
            have d4 : ¬ (lbrace = '"') := by decide
            have d5 : ¬ (lbrace = '[') := by decide
            have d6 : ¬ (('"' : Char) = rbrace) := by decide
            simp [parseVal, hcs, hskip, hobj, d1, d2, d3, d4, d5, d6]
      · -- parseArrElems inverts the element list emission
        intro x xs lvl clvl rest cs hb hcs
        have hndh : noDigitHead (emitArrRest xs lvl ++
            '\n' :: (indentChars clvl ++ ']' :: rest)) = true := by
          cases xs <;> simp [emitArrRest, noDigitHead, isDigitChar]
        have hx : parseVal g cs = some (x, emitArrRest xs lvl ++
            '\n' :: (indentChars clvl ++ ']' :: rest)) := by
          apply hA x lvl _ cs _ hndh hcs
          omega
        cases xs with
        | nil =>
          have hskip : skipWs (emitArrRest ([] : List Json) lvl ++
              '\n' :: (indentChars clvl ++ ']' :: rest)) = ']' :: rest := by
            simp only [emitArrRest, List.nil_append]
            rw [skipWs_nl, skipWs_indent]
            exact skipWs_cons_not_ws (by decide) _
          simp [parseArrElems, hx, hskip]
        | cons x' xs' =>
          have hres : emitArrRest (x' :: xs') lvl ++
              '\n' :: (indentChars clvl ++ ']' :: rest) =
              ',' :: '\n' :: (indentChars lvl ++ (emitVal x' lvl ++ (emitArrRest xs' lvl ++
                '\n' :: (indentChars clvl ++ ']' :: rest)))) := by
            simp [emitArrRest]
          rw [hres] at hx
          obtain ⟨c2, cs2, hc2, hnws, _, _⟩ := emitVal_head_spec x' lvl
          have hrec : parseArrElems g ('\n' :: (indentChars lvl ++ (emitVal x' lvl ++
              (emitArrRest xs' lvl ++ '\n' :: (indentChars clvl ++ ']' :: rest))))) =
              some (x' :: xs', rest) := by
            apply hB x' xs' lvl clvl rest
            · simp only [jsize, jsizeL] at hb ⊢; omega
            · rw [skipWs_nl, skipWs_indent, hc2, List.cons_append,
                skipWs_cons_not_ws hnws, ← List.cons_append, ← hc2]
          have hskc : ∀ l : List Char, skipWs (',' :: l) = ',' :: l :=
            fun l => skipWs_cons_not_ws (by decide) l
          simp [parseArrElems, hx, hskc, hrec]
      · -- parseObjMembers inverts the member list emission
        intro k v ms lvl clvl rest cs hb hcs
        have hmh : emitMember (k, v) lvl =
            '"' :: (escapeList k.data ++ ['"', ':', ' '] ++ emitVal v lvl) := rfl
        rw [hmh] at hcs
        have hlen : k.data.length < g := by
          have h' : k.length = k.data.length := rfl
          omega
        have hstr : parseStringBody g (escapeList k.data ++ '"' :: (':' :: ' ' ::
            (emitVal v lvl ++ (emitObjRest ms lvl ++
              '\n' :: (indentChars clvl ++ rbrace :: rest))))) =
            some (k.data, ':' :: ' ' :: (emitVal v lvl ++ (emitObjRest ms lvl ++
              '\n' :: (indentChars clvl ++ rbrace :: rest)))) :=
          parseStringBody_escape k.data g _ hlen
        have hndh : noDigitHead (emitObjRest ms lvl ++
            '\n' :: (indentChars clvl ++ rbrace :: rest)) = true := by
          cases ms <;> simp [emitObjRest, noDigitHead, isDigitChar]
        obtain ⟨c2, cs2, hc2, hnws, _, _⟩ := emitVal_head_spec v lvl
        have hv : parseVal g (' ' :: (emitVal v lvl ++ (emitObjRest ms lvl ++
            '\n' :: (indentChars clvl ++ rbrace :: rest)))) =
            some (v, emitObjRest ms lvl ++ '\n' :: (indentChars clvl ++ rbrace :: rest)) := by
          apply hA v lvl _ _ _ hndh
          · rw [skipWs_cons_ws (by decide), hc2, List.cons_append,
              skipWs_cons_not_ws hnws, ← List.cons_append, ← hc2]
          · omega
        cases ms with
        | nil =>
          have hskip : skipWs (emitObjRest ([] : List (String × Json)) lvl ++
              '\n' :: (indentChars clvl ++ rbrace :: rest)) = rbrace :: rest := by
            simp only [emitObjRest, List.nil_append]
            rw [skipWs_nl, skipWs_indent]
            exact skipWs_cons_not_ws (by decide) _
          have hskcol : ∀ l : List Char, skipWs (':' :: l) = ':' :: l :=
            fun l => skipWs_cons_not_ws (by decide) l
          have dc1 : ¬ (rbrace = ',') := by decide
          simp [parseObjMembers, hcs, hstr, hskcol, hv, hskip, dc1, mk_data]
        | cons kv' ms' =>
          obtain ⟨k', v'⟩ := kv'
          have hres : emitObjRest ((k', v') :: ms') lvl ++
              '\n' :: (indentChars clvl ++ rbrace :: rest) =
              ',' :: '\n' :: (indentChars lvl ++ (emitMember (k', v') lvl ++
                (emitObjRest ms' lvl ++ '\n' :: (indentChars clvl ++ rbrace :: rest)))) := by
            simp [emitObjRest]
          have hmh' : emitMember (k', v') lvl =
              '"' :: (escapeList k'.data ++ ['"', ':', ' '] ++ emitVal v' lvl) := rfl
          have hrec : parseObjMembers g ('\n' :: (indentChars lvl ++ (emitMember (k', v') lvl ++
              (emitObjRest ms' lvl ++ '\n' :: (indentChars clvl ++ rbrace :: rest))))) =
              some ((k', v') :: ms', rest) := by
            apply hC k' v' ms' lvl clvl rest
            · simp only [jsize, jsizeM] at hb ⊢; omega
            · rw [skipWs_nl, skipWs_indent, hmh', List.cons_append,
                skipWs_cons_not_ws (by decide), ← List.cons_append, ← hmh']
          have hskcol : ∀ l : List Char, skipWs (':' :: l) = ':' :: l :=
            fun l => skipWs_cons_not_ws (by decide) l
          have hskip3 : skipWs (emitObjRest ((k', v') :: ms') lvl ++
              '\n' :: (indentChars clvl ++ rbrace :: rest)) =
              ',' :: '\n' :: (indentChars lvl ++ (emitMember (k', v') lvl ++
                (emitObjRest ms' lvl ++ '\n' :: (indentChars clvl ++ rbrace :: rest)))) := by
            rw [hres]
            exact skipWs_cons_not_ws (by decide) _
          simp [parseObjMembers, hcs, hstr, hskcol, hv, hskip3, hrec, mk_data]

theorem escapeChar_length_pos (c : Char) : 1 ≤ (escapeChar c).length := by
  unfold escapeChar
  split_ifs <;> simp [hex4]

theorem escapeList_length (l : List Char) : l.length ≤ (escapeList l).length := by
  induction l with
  | nil => simp [escapeList]
  | cons c cs ih =>
    have h1 := escapeChar_length_pos c
    simp only [escapeList, List.length_cons, List.length_append]
    omega

theorem jsize_le_emit (n : Nat) :
    (∀ v lvl, jsize v ≤ n → jsize v ≤ (emitVal v lvl).length + 1) ∧
    (∀ xs lvl, jsizeL xs ≤ n → jsizeL xs ≤ (emitArrRest xs lvl).length + 1) ∧
    (∀ ms lvl, jsizeM ms ≤ n → jsizeM ms ≤ (emitObjRest ms lvl).length + 1) := by
  induction n using Nat.strong_induction_on with
  | _ n ih =>
    refine ⟨?_, ?_, ?_⟩
    · intro v lvl hv
      cases v with
      | null => simp [jsize, emitVal]
      | bool b => cases b <;> simp [jsize, emitVal]
      | int m => simp [jsize]
      | str s =>
        have h1 := escapeList_length s.data
        have h2 : s.length = s.data.length := rfl
        simp only [jsize, emitVal, List.length_cons, List.length_append,
          List.length_singleton]
        omega
      | arr xs =>
        cases xs with
        | nil => simp [jsize, jsizeL, emitVal]
        | cons x xs =>
          have hn : 1 ≤ n := by simp only [jsize] at hv; omega
          obtain ⟨ihA, ihB, _⟩ := ih (n - 1) (by omega)
          simp only [jsize, jsizeL] at hv ⊢
          have h1 := ihA x (lvl + 1) (by omega)
          have h2 := ihB xs (lvl + 1) (by have := jsize_pos x; omega)
          simp only [emitVal, List.length_cons, List.length_append, List.length_singleton]
          omega
      | obj ms =>
        cases ms with
        | nil => simp [jsize, jsizeM, emitVal]
        | cons kv ms =>
          obtain ⟨k, v⟩ := kv
          have hn : 1 ≤ n := by simp only [jsize] at hv; omega
          obtain ⟨ihA, _, ihC⟩ := ih (n - 1) (by omega)
          simp only [jsize, jsizeM] at hv ⊢
          have h1 := ihA v (lvl + 1) (by omega)
          have h2 := ihC ms (lvl + 1) (by have := jsize_pos v; omega)
          have h3 := escapeList_length k.data
          have h4 : k.length = k.data.length := rfl
          simp only [emitVal, emitMember, List.length_cons, List.length_append,
            List.length_singleton]
          omega
    · intro xs lvl hxs
      cases xs with
      | nil => simp [jsizeL, emitArrRest]
      | cons x xs =>
        have hn : 1 ≤ n := by simp only [jsizeL] at hxs; have := jsize_pos x; omega
        obtain ⟨ihA, ihB, _⟩ := ih (n - 1) (by omega)
        simp only [jsizeL] at hxs ⊢
        have h1 := ihA x lvl (by omega)
        have h2 := ihB xs lvl (by have := jsize_pos x; omega)
        simp only [emitArrRest, List.length_cons, List.length_append]
        omega
    · intro ms lvl hms
      cases ms with
      | nil => simp [jsizeM, emitObjRest]
      | cons kv ms =>
        obtain ⟨k, v⟩ := kv
        have hn : 1 ≤ n := by simp only [jsizeM] at hms; have := jsize_pos v; omega
        obtain ⟨ihA, _, ihC⟩ := ih (n - 1) (by omega)
        simp only [jsizeM] at hms ⊢
        have h1 := ihA v lvl (by omega)
        have h2 := ihC ms lvl (by have := jsize_pos v; omega)
        have h3 := escapeList_length k.data
        have h4 : k.length = k.data.length := rfl
        simp only [emitObjRest, emitMember, List.length_cons, List.length_append,
          List.length_singleton]
        omega

/-- The serializer/parser round trip: `json.loads` recovers every value
serialized by `json.dumps(·, indent=2)`. -/
theorem loads_dumps (v : Json) : loads (dumps v) = some v := by
  have hsize : jsize v ≤ (emitVal v 0).length + 1 :=
    (jsize_le_emit (jsize v)).1 v 0 (le_refl _)
  obtain ⟨c, cs, hc, hnws, _, _⟩ := emitVal_head_spec v 0
  have hskip : skipWs (emitVal v 0 ++ ([] : List Char)) = emitVal v 0 ++ [] := by
    rw [List.append_nil, hc]
    exact skipWs_cons_not_ws hnws _
  have hmain : parseVal ((emitVal v 0).length + 1) (emitVal v 0) = some (v, []) := by
    apply (parse_emit ((emitVal v 0).length + 1)).1 v 0 [] (emitVal v 0) hsize rfl
    rw [List.append_nil] at hskip ⊢
    exact hskip
  simp [loads, dumps, hmain, skipWs]

/-! ### Pagination lemmas -/

theorem get_docs_ok (store : String → StoreResult) (name : String) (page : Int)
    (S : Nat) (r : GetResult) (hs : store name = .ok r) (hne : r.documents ≠ [])
    (hS : 1 ≤ S) :
    get_collection_documents store name page S =
      (let N := r.documents.length
       let tp := (N + S - 1) / S
       let p2 : Int := if (if page < 1 then 1 else page) > (tp : Int) then (tp : Int)
         else (if page < 1 then 1 else page)
       let start := (p2 - 1).toNat * S
       let stop := min (start + S) N
       .ok { collection_name := name
             documents := (List.range' start (stop - start)).map
               (mkDoc r.ids r.documents r.metadatas)
             total_documents := N
             current_page := p2
             total_pages := tp
             page_size := S
             start_idx := some ((start : Int) + 1)
             end_idx := some stop }) := by
  have hne' : r.documents.isEmpty = false := by
    cases h : r.documents with
    | nil => exact absurd h hne
    | cons a l => rfl
  have hS0 : ¬ (S = 0) := by omega
  simp only [get_collection_documents, hs, hne', Bool.false_eq_true, if_false, hS0]

theorem ceil_formula {N S : Nat} (hS : 1 ≤ S) : (N + S - 1) / S = ceilDiv N S := by
  obtain ⟨q, m, hmlt, rfl⟩ : ∃ q m, m < S ∧ N = S * q + m :=
    ⟨N / S, N % S, Nat.mod_lt _ (by omega), (Nat.div_add_mod N S).symm⟩
  have hdiv : (S * q + m) / S = q + m / S := Nat.mul_add_div (by omega) q m
  have hmod : (S * q + m) % S = m % S := Nat.mul_add_mod S q m
  have hm0 : m / S = 0 := Nat.div_eq_of_lt hmlt
  have hmm : m % S = m := Nat.mod_eq_of_lt hmlt
  by_cases hm : m = 0
  · subst hm
    rcases Nat.eq_zero_or_pos q with h0 | h1
    · subst h0
      simp [ceilDiv, Nat.div_eq_of_lt (by omega : S - 1 < S)]
    · have heq : S * q + 0 + S - 1 = (S - 1) + S * q := by
        rw [Nat.add_zero, Nat.add_sub_assoc hS, Nat.add_comm]
      rw [heq, Nat.add_mul_div_left _ _ (by omega : 0 < S),
        Nat.div_eq_of_lt (by omega : S - 1 < S)]
      simp [ceilDiv, hdiv, hmod, hm0, hmm]
      exact (Nat.mul_div_cancel_left q (by omega)).symm
  · have heq : S * q + m + S - 1 = (m - 1) + S * (q + 1) := by
      have hq : S * (q + 1) = S * q + S := by ring
      omega
    rw [heq, Nat.add_mul_div_left _ _ (by omega : 0 < S),
      Nat.div_eq_of_lt (by omega : m - 1 < S)]
    simp [ceilDiv, hdiv, hmod, hm0, hmm, hm]

theorem total_pages_one_le {N S : Nat} (hN : 1 ≤ N) (hS : 1 ≤ S) :
    1 ≤ (N + S - 1) / S :=
  (Nat.one_le_div_iff (by omega)).mpr (by omega)

/-- C1: for every successful fetch with page size `S ≥ 1`, `total_pages` is
the ceiling of `N / S` (where `N` is the number of documents the store
returned), and `total_pages = 0` exactly when `N = 0`. -/
theorem total_pages_ceil (store : String → StoreResult) (name : String) (page : Int)
    (S : Nat) (r : GetResult) (hs : store name = .ok r) (hS : 1 ≤ S) :
    ∃ pd, get_collection_documents store name page S = .ok pd ∧
      pd.total_pages = ceilDiv r.documents.length S ∧
      (pd.total_pages = 0 ↔ r.documents.length = 0) := by
  by_cases hne : r.documents = []
  · refine ⟨⟨name, [], 0, page, 0, S, none, none⟩, ?_, ?_, ?_⟩
    · simp [get_collection_documents, hs, hne]
    · simp [hne, ceilDiv]
    · simp [hne]
  · rw [get_docs_ok store name page S r hs hne hS]
    have hN : 1 ≤ r.documents.length := by
      cases h : r.documents with
      | nil => exact absurd h hne
      | cons a l => simp [h]
    refine ⟨_, rfl, ?_, ?_⟩
    · show (r.documents.length + S - 1) / S = ceilDiv r.documents.length S
      exact ceil_formula hS
    · show (r.documents.length + S - 1) / S = 0 ↔ r.documents.length = 0
      have := total_pages_one_le hN hS
      constructor
      · intro h; omega
      · intro h; omega

/-- Witness for C1 at `N = 5`, `S = 2`, requested page 1. -/
theorem total_pages_ceil_witness :
    ∃ pd, get_collection_documents
        (fun _ => .ok ⟨["a", "b", "c", "d", "e"], ["1", "2", "3", "4", "5"], []⟩)
        "col" 1 2 = .ok pd ∧
      pd.total_pages = ceilDiv 5 2 ∧ (pd.total_pages = 0 ↔ (5 : Nat) = 0) := by
  have h := total_pages_ceil
    (fun _ => .ok ⟨["a", "b", "c", "d", "e"], ["1", "2", "3", "4", "5"], []⟩)
    "col" 1 2 ⟨["a", "b", "c", "d", "e"], ["1", "2", "3", "4", "5"], []⟩ rfl (by decide)
  simpa using h

/-- C2: with at least one document and `S ≥ 1`, a requested page below 1 is
treated as page 1 and a requested page above `total_pages` as
`total_pages` — the result equals the result of requesting the clamped
page; with no documents the result has empty items, `total_pages = 0` and
`current_page` equal to the originally requested page. -/
theorem page_clamping (store : String → StoreResult) (name : String) (page : Int)
    (S : Nat) (r : GetResult) (hs : store name = .ok r) (hS : 1 ≤ S) :
    (r.documents ≠ [] →
      ∃ pd, get_collection_documents store name page S = .ok pd ∧
        pd.current_page = (if page < 1 then 1 else
          if page > (pd.total_pages : Int) then (pd.total_pages : Int) else page) ∧
        get_collection_documents store name page S =
          get_collection_documents store name
            (if page < 1 then 1 else
              if page > (pd.total_pages : Int) then (pd.total_pages : Int) else page) S) ∧
    (r.documents = [] →
      get_collection_documents store name page S = .ok
        ⟨name, [], 0, page, 0, S, none, none⟩) := by
  constructor
  · intro hne
    have hN : 1 ≤ r.documents.length := List.length_pos.mpr hne
    have htp : 1 ≤ (r.documents.length + S - 1) / S := total_pages_one_le hN hS
    have htpi : (1 : Int) ≤ (((r.documents.length + S - 1) / S : Nat) : Int) := by
      exact_mod_cast htp
    refine ⟨_, get_docs_ok store name page S r hs hne hS, ?_, ?_⟩
    · show (if (if page < 1 then 1 else page) > (((r.documents.length + S - 1) / S : Nat) : Int)
          then (((r.documents.length + S - 1) / S : Nat) : Int)
          else (if page < 1 then 1 else page)) =
        (if page < 1 then 1 else
          if page > (((r.documents.length + S - 1) / S : Nat) : Int)
          then (((r.documents.length + S - 1) / S : Nat) : Int) else page)
      split_ifs <;> omega
    · show get_collection_documents store name page S =
        get_collection_documents store name
          (if page < 1 then 1 else
            if page > (((r.documents.length + S - 1) / S : Nat) : Int)
            then (((r.documents.length + S - 1) / S : Nat) : Int) else page) S
      rw [get_docs_ok store name page S r hs hne hS,
        get_docs_ok store name _ S r hs hne hS]
      have hcc :
          (if (if (if page < 1 then 1 else
              if page > (((r.documents.length + S - 1) / S : Nat) : Int)
              then (((r.documents.length + S - 1) / S : Nat) : Int) else page) < 1 then 1
            else (if page < 1 then 1 else
              if page > (((r.documents.length + S - 1) / S : Nat) : Int)
              then (((r.documents.length + S - 1) / S : Nat) : Int) else page)) >
              (((r.documents.length + S - 1) / S : Nat) : Int)
          then (((r.documents.length + S - 1) / S : Nat) : Int)
          else (if (if page < 1 then 1 else
              if page > (((r.documents.length + S - 1) / S : Nat) : Int)
              then (((r.documents.length + S - 1) / S : Nat) : Int) else page) < 1 then 1
            else (if page < 1 then 1 else
              if page > (((r.documents.length + S - 1) / S : Nat) : Int)
              then (((r.documents.length + S - 1) / S : Nat) : Int) else page))) =
          (if (if page < 1 then 1 else page) >
              (((r.documents.length + S - 1) / S : Nat) : Int)
          then (((r.documents.length + S - 1) / S : Nat) : Int)
          else (if page < 1 then 1 else page)) := by
        split_ifs <;> omega
      simp only [hcc]
  · intro hempty
    simp [get_collection_documents, hs, hempty]

/-- Witness for C2 at `N = 5`, `S = 10`, requested page 5 (spec Scenario D),
and at `N = 0`, requested page 7. -/
theorem page_clamping_witness :
    ((["d1", "d2", "d3", "d4", "d5"] : List String) ≠ [] →
      ∃ pd, get_collection_documents
          (fun _ => .ok ⟨[], ["d1", "d2", "d3", "d4", "d5"], []⟩) "col" 5 10 = .ok pd ∧
        pd.current_page = (if (5 : Int) < 1 then 1 else
          if (5 : Int) > (pd.total_pages : Int) then (pd.total_pages : Int) else 5) ∧
        get_collection_documents
            (fun _ => .ok ⟨[], ["d1", "d2", "d3", "d4", "d5"], []⟩) "col" 5 10 =
          get_collection_documents
            (fun _ => .ok ⟨[], ["d1", "d2", "d3", "d4", "d5"], []⟩) "col"
            (if (5 : Int) < 1 then 1 else
              if (5 : Int) > (pd.total_pages : Int) then (pd.total_pages : Int) else 5) 10) ∧
    get_collection_documents (fun _ => .ok ⟨[], [], []⟩) "col" 7 10 = .ok
      ⟨"col", [], 0, 7, 0, 10, none, none⟩ := by
  constructor
  · exact (page_clamping (fun _ => .ok ⟨[], ["d1", "d2", "d3", "d4", "d5"], []⟩) "col" 5 10
      ⟨[], ["d1", "d2", "d3", "d4", "d5"], []⟩ rfl (by decide)).1
  · exact (page_clamping (fun _ => .ok ⟨[], [], []⟩) "col" 7 10
      ⟨[], [], []⟩ rfl (by decide)).2 rfl

theorem docs_ne_nil_of_page_le (S P : Nat) (r : GetResult) (hS : 1 ≤ S) (hP1 : 1 ≤ P)
    (hP2 : P ≤ (r.documents.length + S - 1) / S) : r.documents ≠ [] := by
  intro h
  rw [h] at hP2
  have h0 : (0 + S - 1) / S = 0 := by
    rw [Nat.zero_add]
    exact Nat.div_eq_of_lt (by omega)
  simp only [List.length_nil, h0] at hP2
  omega

theorem get_docs_in_range (store : String → StoreResult) (name : String) (S P : Nat)
    (r : GetResult) (hs : store name = .ok r) (hS : 1 ≤ S) (hP1 : 1 ≤ P)
    (hP2 : P ≤ (r.documents.length + S - 1) / S) :
    get_collection_documents store name (P : Int) S = .ok
      { collection_name := name
        documents := (List.range' ((P - 1) * S)
            (min ((P - 1) * S + S) r.documents.length - (P - 1) * S)).map
          (mkDoc r.ids r.documents r.metadatas)
        total_documents := r.documents.length
        current_page := (P : Int)
        total_pages := (r.documents.length + S - 1) / S
        page_size := S
        start_idx := some ((((P - 1) * S : Nat) : Int) + 1)
        end_idx := some (min ((P - 1) * S + S) r.documents.length) } := by
  have hne := docs_ne_nil_of_page_le S P r hS hP1 hP2
  rw [get_docs_ok store name (P : Int) S r hs hne hS]
  have htpi : ((P : Nat) : Int) ≤ (((r.documents.length + S - 1) / S : Nat) : Int) := by
    exact_mod_cast hP2
  have hp2 : (if (if (P : Int) < 1 then 1 else (P : Int)) >
        (((r.documents.length + S - 1) / S : Nat) : Int)
      then (((r.documents.length + S - 1) / S : Nat) : Int)
      else (if (P : Int) < 1 then 1 else (P : Int))) = (P : Int) := by
    split_ifs <;> omega
  have htn : ((P : Int) - 1).toNat = P - 1 := by omega
  simp only [hp2, htn]

/-- C3: for a collection with at least one document, `S ≥ 1` and an
effective (already in-range) page `P ∈ [1, total_pages]`, the emitted items
are exactly the documents at 0-based indices `[(P-1)*S, min(P*S, N))`, each
with 1-based position `idx + 1`; `start_idx = (P-1)*S + 1`,
`end_idx = min(P*S, N)`, and the item count is `min(S, N - (P-1)*S)`. -/
theorem page_window (store : String → StoreResult) (name : String) (S P : Nat)
    (r : GetResult) (hs : store name = .ok r) (hS : 1 ≤ S) (hP1 : 1 ≤ P)
    (hP2 : P ≤ (r.documents.length + S - 1) / S) :
    ∃ pd, get_collection_documents store name (P : Int) S = .ok pd ∧
      pd.documents = (List.range' ((P - 1) * S)
          (min (P * S) r.documents.length - (P - 1) * S)).map
        (mkDoc r.ids r.documents r.metadatas) ∧
      pd.documents.length = min S (r.documents.length - (P - 1) * S) ∧
      (∀ i, i < pd.documents.length →
        pd.documents[i]? = some (mkDoc r.ids r.documents r.metadatas ((P - 1) * S + i)) ∧
        (mkDoc r.ids r.documents r.metadatas ((P - 1) * S + i)).index = (P - 1) * S + i + 1 ∧
        (mkDoc r.ids r.documents r.metadatas ((P - 1) * S + i)).content =
          (r.documents.get? ((P - 1) * S + i)).getD "") ∧
      pd.start_idx = some ((((P - 1) * S : Nat) : Int) + 1) ∧
      pd.end_idx = some (min (P * S) r.documents.length) := by
  obtain ⟨p, rfl⟩ : ∃ p, P = p + 1 := ⟨P - 1, by omega⟩
  have hps : (p + 1) * S = p * S + S := by ring
  refine ⟨_, get_docs_in_range store name S (p + 1) r hs hS hP1 hP2, ?_, ?_, ?_, ?_, ?_⟩
  · show (List.range' ((p + 1 - 1) * S)
        (min ((p + 1 - 1) * S + S) r.documents.length - (p + 1 - 1) * S)).map
        (mkDoc r.ids r.documents r.metadatas) =
      (List.range' ((p + 1 - 1) * S)
        (min ((p + 1) * S) r.documents.length - (p + 1 - 1) * S)).map
        (mkDoc r.ids r.documents r.metadatas)
    simp only [Nat.add_sub_cancel, hps]
  · show ((List.range' ((p + 1 - 1) * S)
        (min ((p + 1 - 1) * S + S) r.documents.length - (p + 1 - 1) * S)).map
        (mkDoc r.ids r.documents r.metadatas)).length =
      min S (r.documents.length - (p + 1 - 1) * S)
    simp only [List.length_map, List.length_range', Nat.add_sub_cancel]
    omega
  · intro i hi
    have hi' : i < min (p * S + S) r.documents.length - p * S := by
      have hlen : (PageData.documents
          { collection_name := name
            documents := (List.range' ((p + 1 - 1) * S)
                (min ((p + 1 - 1) * S + S) r.documents.length - (p + 1 - 1) * S)).map
              (mkDoc r.ids r.documents r.metadatas)
            total_documents := r.documents.length
            current_page := ((p + 1 : Nat) : Int)
            total_pages := (r.documents.length + S - 1) / S
            page_size := S
            start_idx := some ((((p + 1 - 1) * S : Nat) : Int) + 1)
            end_idx := some (min ((p + 1 - 1) * S + S) r.documents.length) }).length =
          min (p * S + S) r.documents.length - p * S := by
        simp [List.length_map, List.length_range', Nat.add_sub_cancel]
      rw [hlen] at hi
      exact hi
    refine ⟨?_, rfl, rfl⟩
    show ((List.range' ((p + 1 - 1) * S)
        (min ((p + 1 - 1) * S + S) r.documents.length - (p + 1 - 1) * S)).map
        (mkDoc r.ids r.documents r.metadatas))[i]? =
      some (mkDoc r.ids r.documents r.metadatas ((p + 1 - 1) * S + i))
    rw [List.getElem?_map]
    rw [List.getElem?_range' _ _ (by simpa [Nat.add_sub_cancel] using hi')]
    simp [Nat.add_sub_cancel]
  · rfl
  · show some (min ((p + 1 - 1) * S + S) r.documents.length) =
      some (min ((p + 1) * S) r.documents.length)
    simp only [Nat.add_sub_cancel, hps]

/-- Witness for C3 at `N = 25`, `S = 10`, `P = 3` (spec Scenario B). -/
theorem page_window_witness :
    ∃ pd, get_collection_documents
        (fun _ => .ok ⟨(List.range 25).map toString, (List.range 25).map toString, []⟩)
        "col" ((3 : Nat) : Int) 10 = .ok pd ∧
      pd.documents = (List.range' ((3 - 1) * 10)
          (min (3 * 10) ((List.range 25).map toString : List String).length - (3 - 1) * 10)).map
        (mkDoc ((List.range 25).map toString) ((List.range 25).map toString) []) ∧
      pd.documents.length =
        min 10 (((List.range 25).map toString : List String).length - (3 - 1) * 10) ∧
      (∀ i, i < pd.documents.length →
        pd.documents[i]? = some (mkDoc ((List.range 25).map toString)
          ((List.range 25).map toString) [] ((3 - 1) * 10 + i)) ∧
        (mkDoc ((List.range 25).map toString) ((List.range 25).map toString) []
          ((3 - 1) * 10 + i)).index = (3 - 1) * 10 + i + 1 ∧
        (mkDoc ((List.range 25).map toString) ((List.range 25).map toString) []
          ((3 - 1) * 10 + i)).content =
          ((((List.range 25).map toString : List String)).get? ((3 - 1) * 10 + i)).getD "") ∧
      pd.start_idx = some ((((3 - 1) * 10 : Nat) : Int) + 1) ∧
      pd.end_idx = some (min (3 * 10) ((List.range 25).map toString : List String).length) :=
  page_window (fun _ => .ok ⟨(List.range 25).map toString, (List.range 25).map toString, []⟩)
    "col" 10 3 ⟨(List.range 25).map toString, (List.range 25).map toString, []⟩ rfl
    (by decide) (by decide) (by decide)

/-- C4 counterexample: for an empty collection (`N = 0`) and requested page
5, the reported `current_page` is 5 while `max 1 total_pages = 1`, so
`current_page` does not lie in `[1, max 1 total_pages]` — the claimed
invariant fails on the code's empty-collection branch. -/
theorem current_page_out_of_range :
    ∃ pd, get_collection_documents (fun _ => .ok ⟨[], [], []⟩) "col" 5 10 = .ok pd ∧
      pd.current_page = 5 ∧ pd.total_pages = 0 ∧
      ¬ (1 ≤ pd.current_page ∧ pd.current_page ≤ max 1 (pd.total_pages : Int)) := by
  refine ⟨_, rfl, rfl, rfl, ?_⟩
  decide

/-- C4 amended: whenever the fetch returns at least one document (`N ≥ 1`,
`S ≥ 1`), the reported `current_page` lies in `[1, max 1 total_pages]`;
when `N = 0` the code reports the requested page unchanged, which can lie
outside that interval. -/
theorem current_page_in_range (store : String → StoreResult) (name : String) (page : Int)
    (S : Nat) (r : GetResult) (hs : store name = .ok r) (hne : r.documents ≠ [])
    (hS : 1 ≤ S) :
    ∃ pd, get_collection_documents store name page S = .ok pd ∧
      1 ≤ pd.current_page ∧ pd.current_page ≤ max 1 (pd.total_pages : Int) := by
  have hN : 1 ≤ r.documents.length := List.length_pos.mpr hne
  have htp : 1 ≤ (r.documents.length + S - 1) / S := total_pages_one_le hN hS
  have htpi : (1 : Int) ≤ (((r.documents.length + S - 1) / S : Nat) : Int) := by
    exact_mod_cast htp
  refine ⟨_, get_docs_ok store name page S r hs hne hS, ?_, ?_⟩
  · show 1 ≤ (if (if page < 1 then 1 else page) >
        (((r.documents.length + S - 1) / S : Nat) : Int)
      then (((r.documents.length + S - 1) / S : Nat) : Int)
      else (if page < 1 then 1 else page))
    split_ifs <;> omega
  · show (if (if page < 1 then 1 else page) >
        (((r.documents.length + S - 1) / S : Nat) : Int)
      then (((r.documents.length + S - 1) / S : Nat) : Int)
      else (if page < 1 then 1 else page)) ≤
      max 1 ((((r.documents.length + S - 1) / S : Nat) : Int))
    split_ifs <;> omega

/-- Witness for the amended C4 at `N = 5`, `S = 10`, requested page `-3`. -/
theorem current_page_in_range_witness :
    ∃ pd, get_collection_documents
        (fun _ => .ok ⟨[], ["d1", "d2", "d3", "d4", "d5"], []⟩) "col" (-3) 10 = .ok pd ∧
      1 ≤ pd.current_page ∧ pd.current_page ≤ max 1 (pd.total_pages : Int) :=
  current_page_in_range (fun _ => .ok ⟨[], ["d1", "d2", "d3", "d4", "d5"], []⟩) "col" (-3) 10
    ⟨[], ["d1", "d2", "d3", "d4", "d5"], []⟩ rfl (by decide) (by decide)

/-- C5 (code bug): the empty-collection return of `get_collection_documents`
(`src/viewer.py:96`–`104`) omits the `start_idx` and `end_idx` keys, though
every non-empty result carries them and the HTML route
(`src/viewer.py:239`–`240`) reads both keys unconditionally. -/
theorem empty_result_missing_fields :
    (get_collection_documents (fun _ => .ok ⟨[], [], []⟩) "col" 1 10 = .ok
      { collection_name := "col", documents := [], total_documents := 0, current_page := 1,
        total_pages := 0, page_size := 10, start_idx := none, end_idx := none }) ∧
    (∃ pd, get_collection_documents (fun _ => .ok ⟨["i"], ["d"], [none]⟩) "col" 1 10 = .ok pd ∧
      pd.start_idx = some 1 ∧ pd.end_idx = some 1) :=
  ⟨rfl, _, rfl, rfl, rfl⟩

/-- C6 counterexample: a missing collection is surfaced with the same HTTP
500 status as any other store failure — a server-error status, not a
client-error (4xx) "not found" response distinguishable from the internal
class. -/
theorem notfound_surfaces_as_500 :
    get_collection_documents (fun _ => .notFound "Collection missing does not exist.")
      "missing" 1 10 =
      .error ⟨500, "Error retrieving documents: Collection missing does not exist."⟩ ∧
    get_collection_documents (fun _ => .getError "database disk image is malformed")
      "col" 1 10 =
      .error ⟨500, "Error retrieving documents: database disk image is malformed"⟩ ∧
    ¬ (400 ≤ 500 ∧ 500 < 500) :=
  ⟨rfl, rfl, by decide⟩

/-- C6 amended: a missing collection is caught by the blanket `except` and
re-raised with the same internal HTTP 500 class (message attached) as any
other store failure; no store failure is silently swallowed — every store
failure yields an error result carrying the underlying message. -/
theorem store_failure_propagates (store : String → StoreResult) (name : String)
    (page : Int) (S : Nat) (msg : String)
    (h : store name = .notFound msg ∨ store name = .getError msg) :
    get_collection_documents store name page S =
      .error ⟨500, "Error retrieving documents: " ++ msg⟩ := by
  rcases h with h | h <;> simp [get_collection_documents, h]

/-- Witness for the amended C6 on both failure kinds. -/
theorem store_failure_propagates_witness :
    get_collection_documents (fun _ => .notFound "no such collection") "a" 1 10 =
      .error ⟨500, "Error retrieving documents: " ++ "no such collection"⟩ ∧
    get_collection_documents (fun _ => .getError "io error") "b" 2 10 =
      .error ⟨500, "Error retrieving documents: " ++ "io error"⟩ :=
  ⟨store_failure_propagates (fun _ => .notFound "no such collection") "a" 1 10
      "no such collection" (Or.inl rfl),
    store_failure_propagates (fun _ => .getError "io error") "b" 2 10
      "io error" (Or.inr rfl)⟩

/-- C7: `get_collections` returns one entry per collection known to the
store, in order; a collection whose count lookup fails still appears with
`document_count = 0` and the error message attached, and every other
collection's entry is determined by its own lookup alone. -/
theorem collections_listing (cols : List (String × Except String Nat)) :
    (get_collections cols).length = cols.length ∧
    ∀ (i : Nat) (name : String) (res : Except String Nat), cols[i]? = some (name, res) →
      ∃ e : CollEntry, (get_collections cols)[i]? = some e ∧ e.name = name ∧
        (∀ c, res = .ok c → e.document_count = c ∧ e.error = none) ∧
        (∀ msg, res = .error msg → e.document_count = 0 ∧ e.error = some msg) := by
  constructor
  · simp [get_collections]
  · intro i name res h
    refine ⟨(match res with
        | .ok cnt => { name := name, document_count := cnt, error := none }
        | .error e => { name := name, document_count := 0, error := some e }), ?_, ?_, ?_, ?_⟩
    · simp only [get_collections, List.getElem?_map, h]
      cases res <;> rfl
    · cases res <;> rfl
    · intro c hc
      subst hc
      exact ⟨rfl, rfl⟩
    · intro msg hmsg
      subst hmsg
      exact ⟨rfl, rfl⟩

/-- Witness for C7: one healthy collection and one whose count lookup
fails. -/
theorem collections_listing_witness :
    ∃ e : CollEntry,
      (get_collections [("a", .ok 3), ("b", .error "count failed")])[1]? = some e ∧
      e.name = "b" ∧
      (∀ c, (.error "count failed" : Except String Nat) = .ok c →
        e.document_count = c ∧ e.error = none) ∧
      (∀ msg, (.error "count failed" : Except String Nat) = .error msg →
        e.document_count = 0 ∧ e.error = some msg) :=
  (collections_listing [("a", .ok 3), ("b", .error "count failed")]).2 1 "b"
    (.error "count failed") rfl

/-- C8 counterexample: with no prior connection, a failing
`ChromaViewer.connect` returns `False` but leaves the global `db_path`
set to the attempted new path (the assignment at `src/viewer.py:43`
precedes the failing `PersistentClient` call at `src/viewer.py:44`), so
the stored database path does refer to the attempted connection. -/
theorem connect_failure_sets_db_path :
    (connect ⟨none, none⟩ "/tmp/db" (fun _ => .error "open failed")).1 = false ∧
    (connect ⟨none, none⟩ "/tmp/db" (fun _ => .error "open failed")).2.db_path =
      some "/tmp/db" :=
  ⟨rfl, rfl⟩

/-- C8 amended: when the underlying store open raises, `connect` returns
`False` and the client handle keeps its previous value (it never refers to
the attempted new connection), but the stored `db_path` is updated to the
attempted path before the failure. -/
theorem connect_failure_state (st : ViewerState) (p : String)
    (openClient : String → Except String Nat) (e : String)
    (h : openClient p = .error e) :
    (connect st p openClient).1 = false ∧
    (connect st p openClient).2.chroma_client = st.chroma_client ∧
    (connect st p openClient).2.db_path = some p := by
  simp [connect, h]

/-- Witness for the amended C8 from a previously-connected state. -/
theorem connect_failure_state_witness :
    (connect ⟨some 7, some "/old"⟩ "/new" (fun _ => .error "boom")).1 = false ∧
    (connect ⟨some 7, some "/old"⟩ "/new" (fun _ => .error "boom")).2.chroma_client =
      (⟨some 7, some "/old"⟩ : ViewerState).chroma_client ∧
    (connect ⟨some 7, some "/old"⟩ "/new" (fun _ => .error "boom")).2.db_path = some "/new" :=
  connect_failure_state ⟨some 7, some "/old"⟩ "/new" (fun _ => .error "boom") "boom" rfl

theorem emitted_doc_is_mkDoc (store : String → StoreResult) (name : String) (page : Int)
    (S : Nat) (pd : PageData) (h : get_collection_documents store name page S = .ok pd) :
    ∀ d ∈ pd.documents, ∃ r idx, store name = .ok r ∧
      d = mkDoc r.ids r.documents r.metadatas idx := by
  intro d hd
  cases hst : store name with
  | notFound msg => simp [get_collection_documents, hst] at h
  | getError msg => simp [get_collection_documents, hst] at h
  | ok r =>
    by_cases hemp : r.documents.isEmpty
    · simp only [get_collection_documents, hst, hemp, if_true] at h
      obtain rfl := (Except.ok.injEq _ _).mp h
      simp at hd
    · have hne : r.documents ≠ [] := fun hc => by simp [hc] at hemp
      by_cases hS0 : S = 0
      · simp [get_collection_documents, hst, hemp, hS0] at h
      · rw [get_docs_ok store name page S r hst hne (by omega)] at h
        obtain rfl := (Except.ok.injEq _ _).mp h
        obtain ⟨idx, _, rfl⟩ := List.mem_map.mp hd
        exact ⟨r, idx, rfl, rfl⟩

/-- C9: every emitted document record's preview equals the content when the
content has at most 200 characters, and is exactly the first 200 characters
followed by the `...` marker otherwise. -/
theorem content_preview_rule (store : String → StoreResult) (name : String) (page : Int)
    (S : Nat) (pd : PageData) (h : get_collection_documents store name page S = .ok pd) :
    ∀ d ∈ pd.documents,
      (d.content.length ≤ 200 → d.content_preview = d.content) ∧
      (200 < d.content.length →
        d.content_preview.data = d.content.data.take 200 ++ ['.', '.', '.']) := by
  intro d hd
  obtain ⟨r, idx, _, rfl⟩ := emitted_doc_is_mkDoc store name page S pd h d hd
  constructor
  · intro hle
    simp only [mkDoc] at hle ⊢
    rw [if_neg (by omega)]
  · intro hgt
    simp only [mkDoc] at hgt ⊢
    rw [if_pos (by omega)]
    rfl

set_option maxRecDepth 4000 in
/-- Witness for C9: a two-character document's preview equals its content,
and a 201-character document's preview is its first 200 characters plus
`...`. -/
theorem content_preview_rule_witness :
    (mkDoc ["i"] ["hi"] [] 0).content_preview = (mkDoc ["i"] ["hi"] [] 0).content ∧
    (mkDoc ["j"] [String.mk (List.replicate 201 'a')] [] 0).content_preview.data =
      (mkDoc ["j"] [String.mk (List.replicate 201 'a')] [] 0).content.data.take 200 ++
        ['.', '.', '.'] := by
  constructor
  · exact (content_preview_rule (fun _ => .ok ⟨["i"], ["hi"], []⟩) "col" 1 10 _ rfl
      (mkDoc ["i"] ["hi"] [] 0) (List.mem_singleton.mpr rfl)).1 (by decide)
  · exact (content_preview_rule
      (fun _ => .ok ⟨["j"], [String.mk (List.replicate 201 'a')], []⟩) "col" 1 10 _ rfl
      (mkDoc ["j"] [String.mk (List.replicate 201 'a')] [] 0)
      (List.mem_singleton.mpr rfl)).2 (by decide)

theorem mkDoc_metadata_str (ids docs : List String) (metas : List (Option Metadata))
    (idx : Nat) :
    ((mkDoc ids docs metas idx).metadata = [] → (mkDoc ids docs metas idx).metadata_str = "") ∧
    ((mkDoc ids docs metas idx).metadata ≠ [] →
      loads (mkDoc ids docs metas idx).metadata_str =
        some (.obj (mkDoc ids docs metas idx).metadata)) := by
  cases hm : metas[idx]?.getD none with
  | none =>
    constructor
    · intro _; simp [mkDoc, hm]
    · intro hne; exact absurd (by simp [mkDoc, hm]) hne
  | some m =>
    by_cases hie : m.isEmpty
    · constructor
      · intro _; simp [mkDoc, hm, hie]
      · intro hne; exact absurd (by simp [mkDoc, hm, hie]) hne
    · have hmeta : (mkDoc ids docs metas idx).metadata = m := by
        simp [mkDoc, hm, hie]
      have hstr : (mkDoc ids docs metas idx).metadata_str = dumps (.obj m) := by
        simp [mkDoc, hm, hie]
      constructor
      · intro hmeq
        rw [hmeta] at hmeq
        rw [hmeq] at hie
        simp at hie
      · intro _
        rw [hmeta, hstr, loads_dumps]

/-- C10: for every emitted document record, empty or absent metadata yields
the empty mapping with an empty serialized string, and non-empty metadata
is kept as-is with a serialized string that `loads` parses back to the
equal mapping. -/
theorem metadata_roundtrip (store : String → StoreResult) (name : String) (page : Int)
    (S : Nat) (r : GetResult) (pd : PageData) (hs : store name = .ok r)
    (h : get_collection_documents store name page S = .ok pd) :
    (∀ d ∈ pd.documents,
      (d.metadata = [] → d.metadata_str = "") ∧
      (d.metadata ≠ [] → loads d.metadata_str = some (Json.obj d.metadata))) ∧
    (∀ idx : Nat,
      (r.metadatas[idx]?.getD none = none ∨ r.metadatas[idx]?.getD none = some []) →
      (mkDoc r.ids r.documents r.metadatas idx).metadata = [] ∧
      (mkDoc r.ids r.documents r.metadatas idx).metadata_str = "") ∧
    (∀ idx : Nat, ∀ m : Metadata, r.metadatas[idx]?.getD none = some m → m ≠ [] →
      (mkDoc r.ids r.documents r.metadatas idx).metadata = m ∧
      loads (mkDoc r.ids r.documents r.metadatas idx).metadata_str = some (Json.obj m)) := by
  refine ⟨?_, ?_, ?_⟩
  · intro d hd
    obtain ⟨r', idx, _, rfl⟩ := emitted_doc_is_mkDoc store name page S pd h d hd
    exact mkDoc_metadata_str r'.ids r'.documents r'.metadatas idx
  · intro idx hyp
    rcases hyp with hyp | hyp
    · exact ⟨by simp [mkDoc, hyp], by simp [mkDoc, hyp]⟩
    · exact ⟨by simp [mkDoc, hyp], by simp [mkDoc, hyp]⟩
  · intro idx m hm hne
    have hmeta : (mkDoc r.ids r.documents r.metadatas idx).metadata = m := by
      have hie : m.isEmpty = false := by
        simp only [List.isEmpty_eq_false]
        exact hne
      simp [mkDoc, hm, hie]
    refine ⟨hmeta, ?_⟩
    rw [← hmeta]
    exact (mkDoc_metadata_str r.ids r.documents r.metadatas idx).2 (by rw [hmeta]; exact hne)

/-- Witness for C10: absent metadata defaults to the empty mapping with an
empty string, and the mapping `\x7b"a": 1, "b": "x"\x7d` round-trips
through the serialized `metadata_str`. -/
theorem metadata_roundtrip_witness :
    ((mkDoc ["i"] ["hi"] [] 0).metadata = [] ∧ (mkDoc ["i"] ["hi"] [] 0).metadata_str = "") ∧
    ((mkDoc ["j"] ["d"] [some [("a", Json.int 1), ("b", Json.str "x")]] 0).metadata =
        [("a", Json.int 1), ("b", Json.str "x")] ∧
      loads (mkDoc ["j"] ["d"] [some [("a", Json.int 1), ("b", Json.str "x")]] 0).metadata_str =
        some (Json.obj [("a", Json.int 1), ("b", Json.str "x")])) := by
  constructor
  · exact (metadata_roundtrip (fun _ => .ok ⟨["i"], ["hi"], []⟩) "col" 1 10
      ⟨["i"], ["hi"], []⟩ _ rfl rfl).2.1 0 (Or.inl rfl)
  · exact (metadata_roundtrip
      (fun _ => .ok ⟨["j"], ["d"], [some [("a", Json.int 1), ("b", Json.str "x")]]⟩) "col" 1 10
      ⟨["j"], ["d"], [some [("a", Json.int 1), ("b", Json.str "x")]]⟩ _ rfl rfl).2.2 0
      [("a", Json.int 1), ("b", Json.str "x")] rfl (by simp)

end ChromaViewer
